import Mathlib

/-!
Verification development for the A2A Python server generator
(`src/lib/openai_action.ts` and the Next.js route/page module).

The TypeScript source is shallowly embedded: JavaScript values produced by
`JSON.parse` are modelled by the inductive type `JVal`; the fallible pieces
of the pipeline return `Except`.  Machine-level floating point never matters
for any claim, so JSON numbers are carried as their source lexeme.
-/

set_option maxRecDepth 4096

/-- Model of a JavaScript value as produced by `JSON.parse`.  Objects keep
their key/value pairs in source order; duplicate keys are permitted in the
list and property lookup takes the last occurrence, matching JavaScript. -/
inductive JVal where
  | null : JVal
  | bool : Bool → JVal
  | num : String → JVal
  | str : String → JVal
  | arr : List JVal → JVal
  | obj : List (String × JVal) → JVal

/-- Property lookup in an object field list: the last binding of a key wins,
as it does for duplicate keys in a JavaScript object literal. -/
def jget : List (String × JVal) → String → Option JVal
  | [], _ => none
  | (k, v) :: rest, key =>
    match jget rest key with
    | some r => some r
    | none => if k = key then some v else none

/-- Property access `x.key` on an arbitrary JavaScript value: only plain
objects yield properties here (primitives and arrays have no `path`,
`content` or `files` property). -/
def jprop : JVal → String → Option JVal
  | .obj fs, key => jget fs key
  | _, _ => none

/-- True mantissa-digits-all-zero test on a JSON number lexeme, used for
JavaScript truthiness of numbers (`0`, `-0`, `0.00e7` are falsy). -/
def numIsZero (s : String) : Bool :=
  s.data.all (fun c => !c.isDigit || c = '0')

/-- JavaScript truthiness of a `JVal` (`undefined` is represented by
`Option.none` at use sites). -/
def jsTruthy : JVal → Bool
  | .null => false
  | .bool b => b
  | .num s => !numIsZero s
  | .str s => !(s = "")
  | .arr _ => true
  | .obj _ => true

/-- JavaScript truthiness of a possibly-absent value. -/
def jsTruthyOpt : Option JVal → Bool
  | none => false
  | some v => jsTruthy v

/-- One generated file, the element type of the Zod schema
`z.object({ path: z.string(), content: z.string() })`. -/
structure GeneratedFile where
  path : String
  content : String
deriving DecidableEq, Repr

/-- The validated output shape `StructuredA2AServerOutput`
(`{ files: GeneratedFile[] }` with at least two files). -/
structure StructuredA2AServerOutput where
  files : List GeneratedFile
deriving DecidableEq, Repr

/-- Element check of `StructuredA2AServerOutputSchema`: a Zod
`z.object({ path: z.string(), content: z.string() })` accepts exactly a plain
object whose `path` and `content` properties are strings, strips any other
key, and rejects everything else.  Validation of a list is all-or-nothing:
a single bad element fails the whole array. -/
def zodParseFiles : List JVal → Option (List GeneratedFile)
  | [] => some []
  | x :: rest =>
    match x with
    | .obj f =>
      match jget f "path", jget f "content" with
      | some (.str p), some (.str c) =>
        (zodParseFiles rest).map (fun gs => ⟨p, c⟩ :: gs)
      | _, _ => none
    | _ => none

/-- Model of `StructuredA2AServerOutputSchema.parse` (Zod):
`z.object({ files: z.array(z.object({ path: z.string(), content: z.string() })).min(2) })`.
A parse failure throws a `ZodError`; here it is an `Except.error` carrying a
representative message.  Unknown keys are stripped (Zod object default). -/
def StructuredA2AServerOutputSchemaParse (v : JVal) :
    Except String StructuredA2AServerOutput :=
  match v with
  | .obj fs =>
    match jget fs "files" with
    | some (.arr items) =>
      match zodParseFiles items with
      | some gfs =>
        if 2 ≤ gfs.length then .ok ⟨gfs⟩
        else .error "Array must contain at least 2 element(s)"
      | none => .error "invalid file entry"
    | some _ => .error "Expected array, received other"
    | none => .error "Required"
  | _ => .error "Expected object, received other"

/-- Filter condition of `coerceServerShape`:
`f && typeof f.path === "string" && typeof f.content === "string"`. -/
def fileOk (f : JVal) : Bool :=
  jsTruthy f
    && (match jprop f "path" with | some (.str _) => true | _ => false)
    && (match jprop f "content" with | some (.str _) => true | _ => false)

/-- Mapping step of `coerceServerShape`:
`(f) => ({ path: f.path, content: f.content })` (applied after `fileOk`,
so the defaults are never used on kept elements). -/
def toGF (f : JVal) : GeneratedFile :=
  ⟨(match jprop f "path" with | some (.str p) => p | _ => ""),
   (match jprop f "content" with | some (.str c) => c | _ => "")⟩

/-- Model of `coerceServerShape` from `openai_action.ts`: if the parsed value
is truthy, of object type, and its `files` property is an array, keep exactly
the elements whose `path` and `content` are strings (in order), project them
to `{path, content}`, and require at least two; otherwise throw.  A JS array
passes the `typeof` test but has no `files` property, so it falls through to
the error, which `jprop` reflects. -/
def coerceServerShape (parsed : JVal) : Except String StructuredA2AServerOutput :=
  match jprop parsed "files" with
  | some (.arr items) =>
    let files := (items.filter fileOk).map toGF
    if 2 ≤ files.length then .ok ⟨files⟩
    else .error "Model output missing or invalid 'files' array"
  | _ => .error "Model output missing or invalid 'files' array"

/-- Embedding of a validated result back into the JavaScript value it
denotes: `{ files: [{ path, content }, ...] }` with exactly those fields. -/
def fileJVal (f : GeneratedFile) : JVal :=
  .obj [("path", .str f.path), ("content", .str f.content)]

/-- Object `{ files: items }`. -/
def filesObj (items : List JVal) : JVal :=
  .obj [("files", .arr items)]

/-- JavaScript value of a `StructuredA2AServerOutput`. -/
def resultToJVal (r : StructuredA2AServerOutput) : JVal :=
  filesObj (r.files.map fileJVal)

/-- Success test for an `Except`. -/
def isOkE : Except ε α → Bool
  | .ok _ => true
  | .error _ => false

/-! ## JSON text: whitespace, escaping, parsing

This models `JSON.parse` / `JSON.stringify` as used by the free-text
fallback path, plus the `stripCodeFences` helper and the
`/\{[\s\S]*\}$/m` extraction regex. -/

/-- Whitespace accepted by the JSON grammar (`JSON.parse`). -/
def isJsonWs (c : Char) : Bool :=
  c = ' ' || c = '\t' || c = '\n' || c = '\r'

/-- Whitespace for the regex class `\s` and `String.prototype.trim`: the
JSON set plus vertical tab, form feed, NBSP, BOM and the line separators. -/
def isJsWs (c : Char) : Bool :=
  isJsonWs c || c = '\x0b' || c = '\x0c' || c.toNat = 0xa0 ||
    c.toNat = 0x2028 || c.toNat = 0x2029 || c.toNat = 0xfeff

/-- Line terminators recognised by `$` in a multiline JavaScript regex. -/
def isLineTerm (c : Char) : Bool :=
  c = '\n' || c = '\r' || c.toNat = 0x2028 || c.toNat = 0x2029

/-- Drop leading JSON whitespace. -/
def skipWs : List Char → List Char
  | [] => []
  | c :: cs => if isJsonWs c then skipWs cs else c :: cs

/-- Lowercase hex digit for a value below 16. -/
def hexDigitLower (n : Nat) : Char :=
  if n < 10 then Char.ofNat (48 + n) else Char.ofNat (87 + n)

/-- Escaping of one character inside a JSON string literal, exactly as
`JSON.stringify` emits it: the two mandatory escapes, the five short
control escapes, `\u00XX` for the remaining control characters, and the
character itself otherwise. -/
def escChar (c : Char) : List Char :=
  if c = '"' then ['\\', '"']
  else if c = '\\' then ['\\', '\\']
  else if c = '\x08' then ['\\', 'b']
  else if c = '\x0c' then ['\\', 'f']
  else if c = '\n' then ['\\', 'n']
  else if c = '\r' then ['\\', 'r']
  else if c = '\t' then ['\\', 't']
  else if c.toNat < 32 then
    ['\\', 'u', '0', '0', hexDigitLower (c.toNat / 16), hexDigitLower (c.toNat % 16)]
  else [c]

/-- Escape a whole character sequence. -/
def escStr : List Char → List Char
  | [] => []
  | c :: cs => escChar c ++ escStr cs

/-- Quoted JSON string literal of `s`. -/
def quoteStr (s : String) : List Char :=
  '"' :: (escStr s.data ++ ['"'])

/-- Value of one unescaped short-escape character after a backslash. -/
def unescChar (e : Char) : Option Char :=
  if e = '"' then some '"'
  else if e = '\\' then some '\\'
  else if e = '/' then some '/'
  else if e = 'b' then some '\x08'
  else if e = 'f' then some '\x0c'
  else if e = 'n' then some '\n'
  else if e = 'r' then some '\r'
  else if e = 't' then some '\t'
  else none

/-- Numeric value of a hex digit. -/
def hexVal (c : Char) : Option Nat :=
  if 48 ≤ c.toNat && c.toNat ≤ 57 then some (c.toNat - 48)
  else if 97 ≤ c.toNat && c.toNat ≤ 102 then some (c.toNat - 87)
  else if 65 ≤ c.toNat && c.toNat ≤ 70 then some (c.toNat - 55)
  else none

/-- Parse the body of a JSON string literal (after the opening quote) up to
and including the closing quote, returning the decoded characters and the
remaining input.  Raw control characters are rejected, as by `JSON.parse`.
A `\uXXXX` escape is decoded by scalar value (surrogate pairing is not
modelled; no claim involves astral characters). -/
def parseStrBody : Nat → List Char → Option (List Char × List Char)
  | 0, _ => none
  | _, [] => none
  | fuel + 1, c :: cs =>
    if c = '"' then some ([], cs)
    else if c = '\\' then
      match cs with
      | [] => none
      | e :: cs2 =>
        if e = 'u' then
          match cs2 with
          | h1 :: h2 :: h3 :: h4 :: cs3 =>
            match hexVal h1, hexVal h2, hexVal h3, hexVal h4 with
            | some a, some b, some c3, some d =>
              (parseStrBody fuel cs3).map
                (fun p => (Char.ofNat (((a * 16 + b) * 16 + c3) * 16 + d) :: p.1, p.2))
            | _, _, _, _ => none
          | _ => none
        else
          match unescChar e with
          | some d => (parseStrBody fuel cs2).map (fun p => (d :: p.1, p.2))
          | none => none
    else if c.toNat < 32 then none
    else (parseStrBody fuel cs).map (fun p => (c :: p.1, p.2))

/-- Longest prefix of decimal digits. -/
def spanDigits : List Char → List Char × List Char
  | [] => ([], [])
  | c :: cs =>
    if c.isDigit then
      let p := spanDigits cs
      (c :: p.1, p.2)
    else ([], c :: cs)

/-- Integer part of a JSON number: `0` alone, or a nonzero digit followed by
digits (leading zeros are rejected by the JSON grammar). -/
def parseIntPart : List Char → Option (List Char × List Char)
  | [] => none
  | c :: cs =>
    if c = '0' then some (['0'], cs)
    else if c.isDigit then
      let p := spanDigits cs
      some (c :: p.1, p.2)
    else none

/-- Optional fraction part `.[0-9]+`. -/
def parseFracPart (cs : List Char) : Option (List Char × List Char) :=
  match cs with
  | '.' :: rest =>
    match rest with
    | c :: _ =>
      if c.isDigit then
        let p := spanDigits rest
        some ('.' :: p.1, p.2)
      else none
    | [] => none
  | _ => some ([], cs)

/-- Optional exponent part `[eE][+-]?[0-9]+`. -/
def parseExpPart (cs : List Char) : Option (List Char × List Char) :=
  match cs with
  | e :: rest =>
    if e = 'e' || e = 'E' then
      let sr : List Char × List Char :=
        match rest with
        | s :: r => if s = '+' || s = '-' then ([s], r) else ([], rest)
        | [] => ([], [])
      match sr.2 with
      | c :: _ =>
        if c.isDigit then
          let p := spanDigits sr.2
          some (e :: (sr.1 ++ p.1), p.2)
        else none
      | [] => none
    else some ([], cs)
  | [] => some ([], [])

/-- JSON number lexeme.  Claims never depend on the numeric value, so the
lexeme itself is retained in `JVal.num`. -/
def parseNumLex (cs : List Char) : Option (List Char × List Char) :=
  let sr : List Char × List Char :=
    match cs with
    | '-' :: r => (['-'], r)
    | _ => ([], cs)
  match parseIntPart sr.2 with
  | none => none
  | some (ip, r1) =>
    match parseFracPart r1 with
    | none => none
    | some (fp, r2) =>
      match parseExpPart r2 with
      | none => none
      | some (ep, r3) => some (sr.1 ++ ip ++ fp ++ ep, r3)

mutual

/-- Recursive-descent JSON value parser (fuel-indexed; every fuel step is
paired with consumed input at the call sites used below). -/
def parseVal (fuel : Nat) (cs : List Char) : Option (JVal × List Char) :=
  match fuel with
  | 0 => none
  | fuel + 1 =>
    match skipWs cs with
    | [] => none
    | '{' :: rest =>
      match skipWs rest with
      | '}' :: r2 => some (.obj [], r2)
      | r2 => (parseObjFields fuel r2).map (fun p => (.obj p.1, p.2))
    | '[' :: rest =>
      match skipWs rest with
      | ']' :: r2 => some (.arr [], r2)
      | r2 => (parseArrItems fuel r2).map (fun p => (.arr p.1, p.2))
    | '"' :: rest =>
      (parseStrBody (rest.length + 1) rest).map
        (fun p => (.str (String.mk p.1), p.2))
    | 't' :: 'r' :: 'u' :: 'e' :: rest => some (.bool true, rest)
    | 'f' :: 'a' :: 'l' :: 's' :: 'e' :: rest => some (.bool false, rest)
    | 'n' :: 'u' :: 'l' :: 'l' :: rest => some (.null, rest)
    | c :: rest =>
      if c = '-' || c.isDigit then
        (parseNumLex (c :: rest)).map (fun p => (.num (String.mk p.1), p.2))
      else none

/-- Parse a nonempty comma-separated field list of an object, consuming the
closing brace. -/
def parseObjFields (fuel : Nat) (cs : List Char) :
    Option (List (String × JVal) × List Char) :=
  match fuel with
  | 0 => none
  | fuel + 1 =>
    match cs with
    | '"' :: rest =>
      match parseStrBody (rest.length + 1) rest with
      | none => none
      | some (key, r1) =>
        match skipWs r1 with
        | ':' :: r2 =>
          match parseVal fuel r2 with
          | none => none
          | some (v, r3) =>
            match skipWs r3 with
            | ',' :: r4 =>
              (parseObjFields fuel (skipWs r4)).map
                (fun p => ((String.mk key, v) :: p.1, p.2))
            | '}' :: r4 => some ([(String.mk key, v)], r4)
            | _ => none
        | _ => none
    | _ => none

/-- Parse a nonempty comma-separated item list of an array, consuming the
closing bracket. -/
def parseArrItems (fuel : Nat) (cs : List Char) :
    Option (List JVal × List Char) :=
  match fuel with
  | 0 => none
  | fuel + 1 =>
    match parseVal fuel cs with
    | none => none
    | some (v, r1) =>
      match skipWs r1 with
      | ',' :: r2 => (parseArrItems fuel r2).map (fun p => (v :: p.1, p.2))
      | ']' :: r2 => some ([v], r2)
      | _ => none

end

/-- Model of `JSON.parse` on a character sequence: parse one value and
require that only whitespace remains.  The fuel bound `2 * length + 2`
dominates the parser's needs (each fuel step is matched by at least one
consumed character at every second recursion). -/
def jsonParseChars (cs : List Char) : Option JVal :=
  match parseVal (2 * cs.length + 2) cs with
  | some (v, rest) => if skipWs rest = [] then some v else none
  | none => none

/-- Model of `JSON.parse` on a string. -/
def jsonParse (s : String) : Option JVal := jsonParseChars s.data

/-- The backtick character. -/
def backtick : Char := Char.ofNat 96

/-- Consume an optional case-insensitive `json` tag, as matched by the
`(?:json)?` group with the `i` flag. -/
def dropJsonTag (cs : List Char) : List Char :=
  match cs with
  | c1 :: c2 :: c3 :: c4 :: rest =>
    if (c1 = 'j' || c1 = 'J') && (c2 = 's' || c2 = 'S') &&
        (c3 = 'o' || c3 = 'O') && (c4 = 'n' || c4 = 'N') then rest
    else c1 :: c2 :: c3 :: c4 :: rest
  | _ => cs

/-- Model of `s.replace(/^(three backticks)(?:json)?\s*(slash)i, "")`: an
anchored leading fence, optional tag and trailing whitespace are removed
once; anything else is left alone. -/
def stripLead (cs : List Char) : List Char :=
  match cs with
  | c1 :: c2 :: c3 :: rest =>
    if c1 = backtick && c2 = backtick && c3 = backtick then
      (dropJsonTag rest).dropWhile isJsWs
    else c1 :: c2 :: c3 :: rest
  | _ => cs

/-- Model of `s.replace(/(three backticks)$/i, "")`: without the multiline
flag, `$` anchors at the very end of the string only. -/
def stripTrail (cs : List Char) : List Char :=
  match cs.reverse with
  | c1 :: c2 :: c3 :: rest =>
    if c1 = backtick && c2 = backtick && c3 = backtick then rest.reverse
    else cs
  | _ => cs

/-- Model of `String.prototype.trim`. -/
def jsTrim (cs : List Char) : List Char :=
  ((cs.dropWhile isJsWs).reverse.dropWhile isJsWs).reverse

/-- Model of `stripCodeFences` from `openai_action.ts`, on characters. -/
def stripCodeFencesChars (cs : List Char) : List Char :=
  jsTrim (stripTrail (stripLead cs))

/-- Model of `stripCodeFences` from `openai_action.ts`. -/
def stripCodeFences (s : String) : String :=
  String.mk (stripCodeFencesChars s.data)

/-- Position `p` holds a closing brace that ends a line: the multiline `$`
of the extraction regex matches right after it. -/
def validCloseAt (cs : List Char) (p : Nat) : Bool :=
  (cs.getD p ' ' = '}' && p < cs.length) &&
    (p + 1 = cs.length ||
      (match cs.getD (p + 1) ' ' with | c => isLineTerm c) && p + 1 < cs.length)

/-- Index of the last line-ending closing brace. -/
def lastValidClose (cs : List Char) : Option Nat :=
  ((List.range cs.length).filter (fun p => validCloseAt cs p)).getLast?

/-- Index of the first opening brace. -/
def firstBrace : List Char → Option Nat
  | [] => none
  | c :: cs => if c = '{' then some 0 else (firstBrace cs).map (· + 1)

/-- Model of `raw.match(/\{[\s\S]*\}$/m)`: the leftmost match starts at the
first `{`; the greedy body extends to the last `}` that ends a line.  If no
opening brace precedes a line-ending closing brace there is no match. -/
def extractBraces (cs : List Char) : Option (List Char) :=
  match firstBrace cs, lastValidClose cs with
  | some q, some p => if q < p then some ((cs.drop q).take (p - q + 1)) else none
  | _, _ => none

inductive GenError where
  | modelInvocation : GenError
  | normalization : GenError
  | badJson : GenError
  | schemaError : GenError
deriving DecidableEq, Repr

/-- Normalisation step of the free-text fallback path in
`generatePythonA2AServer`: strip fences, try a direct parse, otherwise
extract the brace-delimited block and parse that; `normalization` is the
`"Failed to parse JSON from model output"` throw and `badJson` the
uncaught `JSON.parse` failure on the extracted block. -/
def normalizeText (text : String) : Except GenError JVal :=
  let raw := stripCodeFencesChars text.data
  match jsonParseChars raw with
  | some v => .ok v
  | none =>
    match extractBraces raw with
    | none => .error .normalization
    | some sub =>
      match jsonParseChars sub with
      | some v => .ok v
      | none => .error .badJson

/-! ## Stringification

`JSON.stringify` restricted to flat objects with string keys and values
(the shape quantified over by the normaliser round-trip property), plus a
general pretty-printer used for the `services` map in the user prompt. -/

/-- A flat JavaScript object with string keys and string values, as a
key/value list. -/
def toJVal (fs : List (String × String)) : JVal :=
  .obj (fs.map (fun kv => (kv.1, .str kv.2)))

/-- One `"key":"value"` chunk of compact `JSON.stringify`. -/
def fieldCompact (kv : String × String) : List Char :=
  quoteStr kv.1 ++ ':' :: quoteStr kv.2

/-- Comma-joined compact fields. -/
def fieldsCompact : List (String × String) → List Char
  | [] => []
  | [kv] => fieldCompact kv
  | kv :: rest => fieldCompact kv ++ ',' :: fieldsCompact rest

/-- Compact `JSON.stringify` of a flat string object. -/
def stringifyCompact (fs : List (String × String)) : List Char :=
  '{' :: (fieldsCompact fs ++ ['}'])

/-- One `"key": "value"` chunk of `JSON.stringify(o, null, 2)`. -/
def fieldPretty (kv : String × String) : List Char :=
  quoteStr kv.1 ++ ':' :: ' ' :: quoteStr kv.2

/-- Pretty fields, separated by a comma, newline and two-space indent. -/
def fieldsPretty : List (String × String) → List Char
  | [] => []
  | [kv] => fieldPretty kv
  | kv :: rest => fieldPretty kv ++ ',' :: '\n' :: ' ' :: ' ' :: fieldsPretty rest

/-- `JSON.stringify(o, null, 2)` of a flat string object. -/
def stringifyPretty (fs : List (String × String)) : List Char :=
  match fs with
  | [] => ['{', '}']
  | _ => '{' :: '\n' :: ' ' :: ' ' :: (fieldsPretty fs ++ '\n' :: ['}'])

/-- Indentation of `n` spaces. -/
def pad (n : Nat) : List Char := List.replicate n ' '

mutual

/-- General `JSON.stringify(v, null, 2)` at indentation level `ind`; only
used to render the `services` map inside the user prompt, so no theorem
depends on it. -/
def ppJVal (ind : Nat) : JVal → List Char
  | .null => 'n' :: 'u' :: 'l' :: 'l' :: []
  | .bool true => 't' :: 'r' :: 'u' :: 'e' :: []
  | .bool false => 'f' :: 'a' :: 'l' :: 's' :: 'e' :: []
  | .num s => s.data
  | .str s => quoteStr s
  | .arr xs =>
    match xs with
    | [] => '[' :: ']' :: []
    | _ => '[' :: '\n' :: (pad (ind + 2) ++ ppItems (ind + 2) xs ++ '\n' :: (pad ind ++ [']']))
  | .obj fs =>
    match fs with
    | [] => '{' :: '}' :: []
    | _ => '{' :: '\n' :: (pad (ind + 2) ++ ppFields (ind + 2) fs ++ '\n' :: (pad ind ++ ['}']))

/-- Array items of the pretty printer. -/
def ppItems (ind : Nat) : List JVal → List Char
  | [] => []
  | [x] => ppJVal ind x
  | x :: xs => ppJVal ind x ++ ',' :: '\n' :: (pad ind ++ ppItems ind xs)

/-- Object fields of the pretty printer. -/
def ppFields (ind : Nat) : List (String × JVal) → List Char
  | [] => []
  | [kv] => quoteStr kv.1 ++ ':' :: ' ' :: ppJVal ind kv.2
  | kv :: fs => quoteStr kv.1 ++ ':' :: ' ' :: ppJVal ind kv.2 ++ ',' :: '\n' :: (pad ind ++ ppFields ind fs)

end

/-- Pretty JSON string of a value. -/
def jstringifyPretty (v : JVal) : String := String.mk (ppJVal 0 v)

/-! ## The generation pipeline

`generatePythonA2AServer` performs two external calls.  They are modelled
as oracle functions from the request actually sent (model id, reasoning
effort, both prompt strings) to the response; `none` models a thrown
transport error.  The JavaScript return value of the pipeline is a `JVal`:
the structured path returns `resp.parsed` unchanged, the fallback path
returns the object built by the Zod parse. -/

inductive REffort where
  | minimal : REffort
  | medium : REffort
  | high : REffort
deriving DecidableEq, Repr

/-- Parameters of `generatePythonA2AServer`. -/
structure GenParams where
  agentDescription : String
  services : Option JVal := none
  modelName : Option String := none
  reasoningEffort : Option REffort := none

/-- Constant instruction template passed as `instructions` to both model
calls.  The spec (section 1) places the instructional text itself out of
scope as static documentation; only its constancy matters to any claim, so
the body is abbreviated here. -/
def systemPrompt : String :=
  "You are an expert Python engineer who specializes in the A2A Protocol. (fixed instruction template)"

/-- Model of the `userPrompt` template literal: description, pretty-printed
services and a restated output instruction, joined by blank lines
(`[a, b, c].join("\n\n")`). -/
def userPrompt (p : GenParams) : String :=
  "Agent Description:\n" ++
    (if p.agentDescription = "" then "(none provided)" else p.agentDescription) ++
    "\n\nServices:\n" ++ jstringifyPretty (p.services.getD (.obj [])) ++
    "\n\nOutput ONLY: \x7b\"files\":[\x7b\"path\":\"...\",\"content\":\"...\"\x7d]\x7d"

/-- The data actually sent on an external call: model identifier, reasoning
effort and the two prompt strings.  The structured call additionally carries
the schema descriptor (a constant, omitted here). -/
structure ModelRequest where
  modelName : String
  reasoningEffort : REffort
  instructions : String
  input : String
deriving DecidableEq, Repr

/-- Response of the structured call: `resp.parsed` may be absent. -/
structure ParseResp where
  parsed : Option JVal

/-- The `text` property of a content fragment: a plain string, or an object
whose `value` may be absent. -/
inductive TextField where
  | strv : String → TextField
  | objv : Option String → TextField

/-- One content fragment (`c` in the source); `text` may be absent. -/
structure ContentItem where
  text : Option TextField

/-- One output item (`o` in the source); `content` may be absent. -/
structure OutputItem where
  content : Option (List ContentItem)

/-- Response of the free-text call. -/
structure CreateResp where
  output_text : Option String := none
  output : Option (List OutputItem) := none

/-- Value of `c?.text?.value ?? c?.text ?? ""` for one fragment.  When
`text` is an object without a `value`, JavaScript string coercion inside
`join` renders the object itself. -/
def contentPiece : ContentItem → String
  | ⟨none⟩ => ""
  | ⟨some (.strv s)⟩ => s
  | ⟨some (.objv (some v))⟩ => v
  | ⟨some (.objv none)⟩ => "[object Object]"

/-- Text collection of the fallback path: a direct `output_text` field wins;
otherwise the content fragments of every output item are flattened, mapped
to their text, filtered by truthiness and joined with newlines. -/
def extractText (resp : CreateResp) : String :=
  match resp.output_text with
  | some t => t
  | none =>
    let contents := ((resp.output.getD []).map (fun o => o.content.getD [])).flatten
    String.intercalate "\n" ((contents.map contentPiece).filter (fun s => !(s = "")))

/-- The two external calls as oracles; `none` is a thrown transport error. -/
structure Oracle where
  parseCall : ModelRequest → Option ParseResp
  createCall : ModelRequest → Option CreateResp

/-- Request built by `generatePythonA2AServer` (defaults applied). -/
def mkRequest (p : GenParams) : ModelRequest :=
  ⟨p.modelName.getD "gpt-5", p.reasoningEffort.getD .minimal, systemPrompt, userPrompt p⟩

/-- The free-text fallback path (the `catch` block of the source): collect
text, fail on empty output, normalise, then validate with the Zod schema. -/
def runFallback : Option CreateResp → Except GenError JVal
  | none => .error .modelInvocation
  | some resp =>
    let text := extractText resp
    if text = "" then .error .modelInvocation
    else
      match normalizeText text with
      | .error e => .error e
      | .ok parsed =>
        match StructuredA2AServerOutputSchemaParse parsed with
        | .ok r => .ok (resultToJVal r)
        | .error _ => .error .schemaError

/-- Model of `generatePythonA2AServer`: try the structured call; on a
throw, an absent response value or a falsy `resp.parsed`, run the fallback
with the same request.  A truthy `resp.parsed` is returned unvalidated. -/
def generatePythonA2AServer (p : GenParams) (o : Oracle) : Except GenError JVal :=
  let req := mkRequest p
  match o.parseCall req with
  | some resp =>
    match resp.parsed with
    | some v => if jsTruthy v then .ok v else runFallback (o.createCall req)
    | none => runFallback (o.createCall req)
  | none => runFallback (o.createCall req)

/-- The invariant claimed for pipeline results: a `files` array of length
at least two whose elements all carry string `path` and `content`. -/
def isValidResult (v : JVal) : Bool :=
  match jprop v "files" with
  | some (.arr items) => decide (2 ≤ items.length) && items.all fileOk
  | _ => false

/-! ## The route handler and archive packaging -/

/-- UTF-8 encoding of one scalar value. -/
def utf8Char (c : Char) : List Nat :=
  let n := c.toNat
  if n < 0x80 then [n]
  else if n < 0x800 then [0xc0 + n / 64, 0x80 + n % 64]
  else if n < 0x10000 then [0xe0 + n / 4096, 0x80 + n / 64 % 64, 0x80 + n % 64]
  else [0xf0 + n / 262144, 0x80 + n / 4096 % 64, 0x80 + n / 64 % 64, 0x80 + n % 64]

/-- UTF-8 encoding of a string. -/
def utf8Bytes (s : String) : List Nat :=
  (s.data.map utf8Char).flatten

/-- Modelled from the spec: the JSZip library is external to this
repository.  Per spec section 4.5 and section 3 (ArchiveEntry),
`zip.file(path, content)` adds one archive entry whose name is the path and
whose bytes are the UTF-8 encoding of the content, and the produced archive
reproduces the entries in insertion order. -/
def zipAddFile (entries : List (String × List Nat)) (path content : String) :
    List (String × List Nat) :=
  entries ++ [(path, utf8Bytes content)]

/-- An archive as the route produces it: the entries it decompresses to, the
compressed buffer, and the byte length declared in the `Content-Length`
header. -/
structure ZipResult where
  entries : List (String × List Nat)
  buffer : List Nat
  declaredLength : Nat

/-- Model of the zip branch of the route handler: add one entry per file in
sequence order, generate the buffer (`deflate` abstracts the DEFLATE
compressor), and declare `content.byteLength` in the header. -/
def packageZip (r : StructuredA2AServerOutput)
    (deflate : List (String × List Nat) → List Nat) : ZipResult :=
  let entries := r.files.foldl (fun es f => zipAddFile es f.path f.content) []
  let content := deflate entries
  ⟨entries, content, content.length⟩

/-- Responses the route handler can produce. -/
inductive PostResp where
  | badRequest : String → PostResp
  | jsonBody : JVal → PostResp
  | zipAttachment : ZipResult → PostResp
  | failed : GenError → PostResp

/-- Parameters the route forwards to the generator.  The route forwards the
body fields untyped; string-typed fields are taken as such and other shapes
collapse to the defaults (no claim depends on mistyped optional fields). -/
def paramsOfBody (body : JVal) : GenParams :=
  ⟨(match jprop body "agentDescription" with | some (.str s) => s | _ => ""),
   jprop body "services",
   (match jprop body "model" with | some (.str s) => some s | _ => none),
   (match jprop body "reasoningEffort" with
    | some (.str s) =>
      if s = "medium" then some .medium
      else if s = "high" then some .high
      else if s = "minimal" then some .minimal
      else none
    | _ => none)⟩

/-- Model of the route `POST` handler: `body` is the result of
`req.json().catch(() => ({}))`; a falsy `agentDescription` is rejected with
status 400 before either oracle can be consulted.  In the zip branch each
file is passed to `zip.file` in order (`toGF` reads the two fields the
route accesses). -/
def POST (body : JVal) (wantZip : Bool) (o : Oracle)
    (deflate : List (String × List Nat) → List Nat) : PostResp :=
  if jsTruthyOpt (jprop body "agentDescription") = false then
    .badRequest "agentDescription required"
  else
    match generatePythonA2AServer (paramsOfBody body) o with
    | .error e => .failed e
    | .ok v =>
      if !wantZip then .jsonBody v
      else
        match jprop v "files" with
        | some (.arr items) => .zipAttachment (packageZip ⟨items.map toGF⟩ deflate)
        | _ => .failed .schemaError

/-! ## Concrete values used in counterexamples and witnesses -/

/-- Concrete parsed value mixing two well-formed file entries with one
malformed entry (a raw number). -/
def mixedFiles : JVal :=
  filesObj [fileJVal ⟨"main.py", "print(1)"⟩, fileJVal ⟨"README.md", "hi"⟩, .num "7"]

/-- Fixed example parameters used in concrete pipeline runs. -/
def echoParams : GenParams := ⟨"Echo agent that repeats user text.", none, none, none⟩

/-- Oracle whose structured call answers with a truthy value that is not a
valid generation result; the fallback call would throw. -/
def badStructuredOracle : Oracle :=
  ⟨fun _ => some ⟨some (.str "not a files object")⟩, fun _ => none⟩

/-- Raw JSON text for a valid two-file result, as the model would emit it. -/
def goodText : String :=
  "\x7b\"files\":[\x7b\"path\":\"a\",\"content\":\"x\"\x7d,\x7b\"path\":\"b\",\"content\":\"y\"\x7d]\x7d"

/-- Oracle whose structured call throws and whose free-text call returns
`goodText` in the direct `output_text` field. -/
def goodFallbackOracle : Oracle :=
  ⟨fun _ => none, fun _ => some ⟨some goodText, none⟩⟩

/-- Response with no direct text and no output items: collected text is
empty. -/
def emptyCreateResp : CreateResp := ⟨none, some []⟩

/-- Oracle whose structured call returns a falsy parsed value and whose
free-text call throws. -/
def falsyParsedOracle : Oracle :=
  ⟨fun _ => some ⟨some .null⟩, fun _ => none⟩

/-- A leading (optionally `json`-tagged) code fence line and a trailing
code-fence line around a payload. -/
def wrapFence (tag : Bool) (s : List Char) : List Char :=
  backtick :: backtick :: backtick ::
    ((if tag then ['j', 's', 'o', 'n'] else []) ++
      '\n' :: (s ++ '\n' :: backtick :: backtick :: backtick :: []))

/-! ## Sanity checks -/

example : StructuredA2AServerOutputSchemaParse
    (filesObj [fileJVal ⟨"a", "x"⟩, fileJVal ⟨"b", "y"⟩]) =
    .ok ⟨[⟨"a", "x"⟩, ⟨"b", "y"⟩]⟩ := rfl

example : coerceServerShape
    (filesObj [fileJVal ⟨"a", "x"⟩, .num "1", fileJVal ⟨"b", "y"⟩]) =
    .ok ⟨[⟨"a", "x"⟩, ⟨"b", "y"⟩]⟩ := rfl

example : isOkE (StructuredA2AServerOutputSchemaParse
    (filesObj [fileJVal ⟨"a", "x"⟩, .num "1", fileJVal ⟨"b", "y"⟩])) = false := rfl

example : jsonParse "  true " = some (.bool true) := rfl
example : jsonParse "[1, 2.5e3]" = some (.arr [.num "1", .num "2.5e3"]) := rfl
example : jsonParse "01" = none := rfl
example : jsonParseChars ('{' :: '}' :: []) = some (.obj []) := rfl
example : jsonParseChars ('{' :: '"' :: 'a' :: '"' :: ':' :: 'n' :: 'u' :: 'l' :: 'l' :: '}' :: []) =
    some (.obj [("a", .null)]) := rfl
example : jsonParse "\"a\\nb\"" = some (.str "a\nb") := rfl
example : jsonParse "\"\\u0007\"" = some (.str "\x07") := rfl
example : stripCodeFences "hello" = "hello" := rfl
example : normalizeText "no json here" = .error .normalization := rfl

/-! ## Validator lemmas -/

lemma jget_eq_none_of_not_mem (l : List (String × JVal)) (key : String)
    (h : ∀ kv ∈ l, kv.1 ≠ key) : jget l key = none := by
  induction l with
  | nil => rfl
  | cons kv t ih =>
    have ht : ∀ x ∈ t, x.1 ≠ key := fun x hx => h x (List.mem_cons_of_mem _ hx)
    have hk : kv.1 ≠ key := h kv (List.mem_cons_self _ _)
    simp [jget, ih ht, hk]

lemma jprop_fileJVal_path (f : GeneratedFile) :
    jprop (fileJVal f) "path" = some (.str f.path) := by
  simp [jprop, fileJVal, jget]

lemma jprop_fileJVal_content (f : GeneratedFile) :
    jprop (fileJVal f) "content" = some (.str f.content) := by
  simp [jprop, fileJVal, jget]

lemma fileOk_fileJVal (f : GeneratedFile) : fileOk (fileJVal f) = true := by
  simp [fileOk, fileJVal, jprop, jget, jsTruthy]

lemma toGF_fileJVal (f : GeneratedFile) : toGF (fileJVal f) = f := by
  simp [toGF, jprop_fileJVal_path, jprop_fileJVal_content]

lemma jprop_filesObj (items : List JVal) :
    jprop (filesObj items) "files" = some (.arr items) := by
  simp [jprop, filesObj, jget]

lemma zodParseFiles_map (gfs : List GeneratedFile) :
    zodParseFiles (gfs.map fileJVal) = some gfs := by
  induction gfs with
  | nil => rfl
  | cons f t ih => simp [zodParseFiles, fileJVal, jget, ih]

lemma schemaParse_filesObj_map (gfs : List GeneratedFile) (h : 2 ≤ gfs.length) :
    StructuredA2AServerOutputSchemaParse (filesObj (gfs.map fileJVal)) = .ok ⟨gfs⟩ := by
  simp [StructuredA2AServerOutputSchemaParse, filesObj, jget, zodParseFiles_map, h]

lemma zodParseFiles_eq_none (items : List JVal) (f : JVal) (hf : f ∈ items)
    (h : fileOk f = false) : zodParseFiles items = none := by
  induction items with
  | nil => cases hf
  | cons x t ih =>
    rcases List.mem_cons.mp hf with rfl | hmem
    · cases f with
      | obj fields =>
        simp only [fileOk, jsTruthy, jprop, Bool.true_and, Bool.and_eq_false_imp,
          Bool.and_eq_false_iff] at h
        rcases hp : jget fields "path" with _ | vp
        · simp [zodParseFiles, hp]
        · rcases hc : jget fields "content" with _ | vc
          · cases vp <;> simp [zodParseFiles, hp, hc]
          · cases vp <;> cases vc <;> simp [zodParseFiles, hp, hc] <;>
              simp [fileOk, jprop, hp, hc, jsTruthy] at h
      | null => rfl
      | bool b => cases b <;> rfl
      | num s => rfl
      | str s => rfl
      | arr xs => rfl
    · have ht := ih hmem
      cases x with
      | obj fields =>
        rcases hp : jget fields "path" with _ | vp
        · simp [zodParseFiles, hp]
        · rcases hc : jget fields "content" with _ | vc
          · cases vp <;> simp [zodParseFiles, hp, hc]
          · cases vp <;> cases vc <;> simp [zodParseFiles, hp, hc, ht]
      | null => rfl
      | bool b => cases b <;> rfl
      | num s => rfl
      | str s => rfl
      | arr xs => rfl

lemma coerceServerShape_filesObj (items : List JVal)
    (h : 2 ≤ (items.filter fileOk).length) :
    coerceServerShape (filesObj items) = .ok ⟨(items.filter fileOk).map toGF⟩ := by
  simp [coerceServerShape, jprop_filesObj, h]

lemma filter_fileOk_map_fileJVal (gfs : List GeneratedFile) :
    (gfs.map fileJVal).filter fileOk = gfs.map fileJVal := by
  induction gfs with
  | nil => rfl
  | cons f t ih => simp [List.filter, fileOk_fileJVal, ih]

lemma coerceServerShape_map (gfs : List GeneratedFile) (h : 2 ≤ gfs.length) :
    coerceServerShape (filesObj (gfs.map fileJVal)) = .ok ⟨gfs⟩ := by
  have hfilter := filter_fileOk_map_fileJVal gfs
  have hlen : 2 ≤ ((gfs.map fileJVal).filter fileOk).length := by
    rw [hfilter, List.length_map]; exact h
  have hmaps : (gfs.map fileJVal).map toGF = gfs := by
    rw [List.map_map]
    have hcomp : toGF ∘ fileJVal = id := funext toGF_fileJVal
    rw [hcomp, List.map_id]
  rw [coerceServerShape_filesObj _ hlen, hfilter, hmaps]

/-! ## Claim C6 -/

/-- C6: the minimum-count gate.  A `files` array holding exactly one
well-formed entry fails validation (both in the Zod schema the pipeline
applies and in `coerceServerShape`); any list of well-formed entries of
length at least two — with no upper bound, duplicate paths included —
validates to exactly those entries, unchanged and in order. -/
theorem c6_min_count_gate :
    (∀ f : GeneratedFile,
      isOkE (StructuredA2AServerOutputSchemaParse (filesObj [fileJVal f])) = false ∧
      isOkE (coerceServerShape (filesObj [fileJVal f])) = false) ∧
    (∀ gfs : List GeneratedFile, 2 ≤ gfs.length →
      StructuredA2AServerOutputSchemaParse (filesObj (gfs.map fileJVal)) = .ok ⟨gfs⟩ ∧
      coerceServerShape (filesObj (gfs.map fileJVal)) = .ok ⟨gfs⟩) := by
  constructor
  · intro f
    constructor
    · have h1 : zodParseFiles [fileJVal f] = some [f] := zodParseFiles_map [f]
      simp [StructuredA2AServerOutputSchemaParse, filesObj, jget, h1, isOkE]
    · have h1 : [fileJVal f].filter fileOk = [fileJVal f] := filter_fileOk_map_fileJVal [f]
      simp [coerceServerShape, jprop_filesObj, h1, isOkE]
  · intro gfs h
    exact ⟨schemaParse_filesObj_map gfs h, coerceServerShape_map gfs h⟩

/-- Witness for C6 at a concrete input, with duplicate paths in the
two-element case. -/
theorem c6_min_count_gate_witness :
    isOkE (StructuredA2AServerOutputSchemaParse
      (filesObj [fileJVal ⟨"main.py", "a"⟩])) = false ∧
    StructuredA2AServerOutputSchemaParse
      (filesObj ([⟨"main.py", "a"⟩, ⟨"main.py", "a"⟩].map fileJVal)) =
      .ok ⟨[⟨"main.py", "a"⟩, ⟨"main.py", "a"⟩]⟩ :=
  ⟨(c6_min_count_gate.1 ⟨"main.py", "a"⟩).1,
   (c6_min_count_gate.2 [⟨"main.py", "a"⟩, ⟨"main.py", "a"⟩] (by decide)).1⟩

/-! ## Claim C7 -/

/-- C7: validator idempotence.  Re-validating an already-valid
`GenerationResult` — an object whose `files` array has length at least two
and whose elements carry exactly string `path` and `content` fields —
returns a value equal to the input. -/
theorem c7_validator_idempotent (r : StructuredA2AServerOutput)
    (h : 2 ≤ r.files.length) :
    StructuredA2AServerOutputSchemaParse (resultToJVal r) = .ok r :=
  schemaParse_filesObj_map r.files h

/-- Witness for C7. -/
theorem c7_validator_idempotent_witness :
    StructuredA2AServerOutputSchemaParse
      (resultToJVal ⟨[⟨"main.py", "x"⟩, ⟨"README.md", "y"⟩]⟩) =
      .ok ⟨[⟨"main.py", "x"⟩, ⟨"README.md", "y"⟩]⟩ :=
  c7_validator_idempotent ⟨[⟨"main.py", "x"⟩, ⟨"README.md", "y"⟩]⟩ (by decide)

/-! ## Claim C10 -/

/-- C10: unknown keys on file entries are stripped.  A value accepted by the
free-text path's schema validation yields elements containing exactly the
`path` and `content` fields: any extra fields present on the input entries
are absent from the output, which consists of the projected pairs only. -/
theorem c10_extra_fields_stripped
    (raw : List (GeneratedFile × List (String × JVal)))
    (hkeys : ∀ x ∈ raw, ∀ kv ∈ x.2, kv.1 ≠ "path" ∧ kv.1 ≠ "content")
    (hlen : 2 ≤ raw.length) :
    StructuredA2AServerOutputSchemaParse
      (filesObj (raw.map (fun x =>
        .obj (("path", .str x.1.path) :: ("content", .str x.1.content) :: x.2)))) =
    .ok ⟨raw.map Prod.fst⟩ := by
  have hfiles : ∀ raw2 : List (GeneratedFile × List (String × JVal)),
      (∀ x ∈ raw2, ∀ kv ∈ x.2, kv.1 ≠ "path" ∧ kv.1 ≠ "content") →
      zodParseFiles (raw2.map (fun x =>
        .obj (("path", .str x.1.path) :: ("content", .str x.1.content) :: x.2))) =
      some (raw2.map Prod.fst) := by
    intro raw2 hk
    induction raw2 with
    | nil => rfl
    | cons x t ih =>
      have hx := hk x (List.mem_cons_self _ _)
      have hnp : jget x.2 "path" = none :=
        jget_eq_none_of_not_mem _ _ (fun kv hkv => (hx kv hkv).1)
      have hnc : jget x.2 "content" = none :=
        jget_eq_none_of_not_mem _ _ (fun kv hkv => (hx kv hkv).2)
      have ht := ih (fun y hy => hk y (List.mem_cons_of_mem _ hy))
      simp [zodParseFiles, jget, hnp, hnc, ht]
  have h1 := hfiles raw hkeys
  simp [StructuredA2AServerOutputSchemaParse, filesObj, jget, h1, hlen]

/-- Witness for C10: an entry carrying an extra `mode` field validates and
the field is gone from the output. -/
theorem c10_extra_fields_stripped_witness :
    StructuredA2AServerOutputSchemaParse
      (filesObj ([((⟨"a", "x"⟩ : GeneratedFile), [("mode", JVal.str "755")]),
                  ((⟨"b", "y"⟩ : GeneratedFile), [])].map (fun x =>
        .obj (("path", .str x.1.path) :: ("content", .str x.1.content) :: x.2)))) =
    .ok ⟨[⟨"a", "x"⟩, ⟨"b", "y"⟩]⟩ :=
  c10_extra_fields_stripped
    [((⟨"a", "x"⟩ : GeneratedFile), [("mode", JVal.str "755")]),
     ((⟨"b", "y"⟩ : GeneratedFile), [])]
    (by decide) (by decide)

/-! ## Claim C1 -/

/-- C1 counterexample: the validation the pipeline applies to the free-text
path (`StructuredA2AServerOutputSchema.parse`, line 306) does not keep the
well-formed subset of a mixed array — it rejects the whole payload — while
the unused helper `coerceServerShape` does filter as the claim describes. -/
theorem c1_counterexample :
    isOkE (StructuredA2AServerOutputSchemaParse mixedFiles) = false ∧
    coerceServerShape mixedFiles =
      .ok ⟨[⟨"main.py", "print(1)"⟩, ⟨"README.md", "hi"⟩]⟩ :=
  ⟨rfl, rfl⟩

/-- C1 amended: the helper `coerceServerShape` keeps exactly the well-formed
subset in original relative order, silently dropping malformed elements;
but the validation that `generatePythonA2AServer` actually applies
(`StructuredA2AServerOutputSchema.parse`) fails on any array containing a
malformed element instead of dropping it. -/
theorem c1_filtering_amended :
    (∀ items : List JVal, 2 ≤ (items.filter fileOk).length →
      coerceServerShape (filesObj items) = .ok ⟨(items.filter fileOk).map toGF⟩) ∧
    (∀ items : List JVal, ∀ f ∈ items, fileOk f = false →
      isOkE (StructuredA2AServerOutputSchemaParse (filesObj items)) = false) := by
  constructor
  · intro items h
    exact coerceServerShape_filesObj items h
  · intro items f hf h
    have h1 := zodParseFiles_eq_none items f hf h
    simp [StructuredA2AServerOutputSchemaParse, filesObj, jget, h1, isOkE]

/-! ## Pipeline lemmas -/

lemma schemaParse_ok_len (p : JVal) (r : StructuredA2AServerOutput)
    (h : StructuredA2AServerOutputSchemaParse p = .ok r) : 2 ≤ r.files.length := by
  cases p with
  | obj fs =>
    rcases hg : jget fs "files" with _ | v
    · simp [StructuredA2AServerOutputSchemaParse, hg] at h
    · cases v with
      | arr items =>
        rcases hz : zodParseFiles items with _ | gfs
        · simp [StructuredA2AServerOutputSchemaParse, hg, hz] at h
        · by_cases hl : 2 ≤ gfs.length
          · simp [StructuredA2AServerOutputSchemaParse, hg, hz, hl] at h
            rw [← h]
            exact hl
          · simp [StructuredA2AServerOutputSchemaParse, hg, hz, hl] at h
      | null => simp [StructuredA2AServerOutputSchemaParse, hg] at h
      | bool b => simp [StructuredA2AServerOutputSchemaParse, hg] at h
      | num s => simp [StructuredA2AServerOutputSchemaParse, hg] at h
      | str s => simp [StructuredA2AServerOutputSchemaParse, hg] at h
      | obj o2 => simp [StructuredA2AServerOutputSchemaParse, hg] at h
  | null => simp [StructuredA2AServerOutputSchemaParse] at h
  | bool b => simp [StructuredA2AServerOutputSchemaParse] at h
  | num s => simp [StructuredA2AServerOutputSchemaParse] at h
  | str s => simp [StructuredA2AServerOutputSchemaParse] at h
  | arr xs => simp [StructuredA2AServerOutputSchemaParse] at h

lemma isValidResult_resultToJVal (r : StructuredA2AServerOutput)
    (h : 2 ≤ r.files.length) : isValidResult (resultToJVal r) = true := by
  simp [isValidResult, resultToJVal, jprop_filesObj, List.all_eq_true, fileOk_fileJVal, h]

lemma runFallback_ok_valid (x : Option CreateResp) (v : JVal)
    (h : runFallback x = .ok v) : isValidResult v = true := by
  cases x with
  | none => cases h
  | some resp =>
    by_cases ht : extractText resp = ""
    · simp [runFallback, ht] at h
    · rcases hn : normalizeText (extractText resp) with e | parsed
      · simp [runFallback, ht, hn] at h
      · rcases hs : StructuredA2AServerOutputSchemaParse parsed with e | r
        · simp [runFallback, ht, hn, hs] at h
        · simp [runFallback, ht, hn, hs] at h
          rw [← h]
          exact isValidResult_resultToJVal r (schemaParse_ok_len parsed r hs)

/-! ## Claim C2 -/

/-- C2 counterexample: a successful invocation can return a value violating
the files invariant.  The structured path returns `resp.parsed` without any
runtime validation, so an external structured response that is truthy but
not schema-conformant flows through as a success. -/
theorem c2_counterexample :
    generatePythonA2AServer echoParams badStructuredOracle =
      .ok (.str "not a files object") ∧
    isValidResult (.str "not a files object") = false :=
  ⟨rfl, rfl⟩

/-- C2 amended: every successful invocation either went through the
free-text fallback path — and then the result satisfies the invariant
(`files` of length at least two, all entries with string `path` and
`content`) — or it is the structured call's `resp.parsed` value returned
unvalidated, for which the invariant holds only if the external response
conformed. -/
theorem c2_result_invariant (p : GenParams) (o : Oracle) (v : JVal)
    (h : generatePythonA2AServer p o = .ok v) :
    (∃ resp, o.parseCall (mkRequest p) = some resp ∧ resp.parsed = some v ∧
      jsTruthy v = true) ∨
    isValidResult v = true := by
  rcases hp : o.parseCall (mkRequest p) with _ | resp
  · simp only [generatePythonA2AServer, hp] at h
    exact Or.inr (runFallback_ok_valid _ _ h)
  · rcases hpd : resp.parsed with _ | w
    · simp only [generatePythonA2AServer, hp, hpd] at h
      exact Or.inr (runFallback_ok_valid _ _ h)
    · by_cases htr : jsTruthy w = true
      · simp only [generatePythonA2AServer, hp, hpd] at h
        rw [if_pos htr] at h
        cases h
        exact Or.inl ⟨resp, rfl, hpd, htr⟩
      · simp only [generatePythonA2AServer, hp, hpd] at h
        rw [if_neg htr] at h
        exact Or.inr (runFallback_ok_valid _ _ h)

/-- Witness for the amended C2: a concrete fallback-path success satisfies
the invariant disjunct. -/
theorem c2_result_invariant_witness :
    (∃ resp, goodFallbackOracle.parseCall (mkRequest echoParams) = some resp ∧
      resp.parsed = some (resultToJVal ⟨[⟨"a", "x"⟩, ⟨"b", "y"⟩]⟩) ∧
      jsTruthy (resultToJVal ⟨[⟨"a", "x"⟩, ⟨"b", "y"⟩]⟩) = true) ∨
    isValidResult (resultToJVal ⟨[⟨"a", "x"⟩, ⟨"b", "y"⟩]⟩) = true :=
  c2_result_invariant echoParams goodFallbackOracle _ (by rfl)

/-! ## Claim C5 -/

/-- C5: fallback behaviour.  Whenever the structured call throws, returns no
response value, or returns a falsy `parsed`, the pipeline equals the
fallback run on the free-text call issued with the very same request
(model, effort, and the two prompts).  A thrown free-text call or one whose
collected text is empty fails with the model-invocation error and nothing
retries.  When the collected text normalises and validates, the pipeline
succeeds with the validated value.  Text collection takes a direct
`output_text` field when present and otherwise concatenates the nested
content fragments. -/
theorem c5_fallback_behavior :
    (∀ (p : GenParams) (o : Oracle),
      (o.parseCall (mkRequest p) = none ∨
        (∃ r, o.parseCall (mkRequest p) = some r ∧ (r.parsed = none ∨
          ∃ v, r.parsed = some v ∧ jsTruthy v = false))) →
      generatePythonA2AServer p o = runFallback (o.createCall (mkRequest p))) ∧
    (runFallback none = .error .modelInvocation) ∧
    (∀ resp, extractText resp = "" →
      runFallback (some resp) = .error .modelInvocation) ∧
    (∀ resp parsed r, extractText resp ≠ "" →
      normalizeText (extractText resp) = .ok parsed →
      StructuredA2AServerOutputSchemaParse parsed = .ok r →
      runFallback (some resp) = .ok (resultToJVal r)) ∧
    (∀ (t : String) (out : Option (List OutputItem)),
      extractText ⟨some t, out⟩ = t) ∧
    (∀ out : Option (List OutputItem),
      extractText ⟨none, out⟩ =
        String.intercalate "\n"
          ((((out.getD []).map (fun o => o.content.getD [])).flatten.map
            contentPiece).filter (fun s => !(s = "")))) := by
  refine ⟨?_, rfl, ?_, ?_, ?_, ?_⟩
  · intro p o h
    rcases h with hp | ⟨r, hp, hcase⟩
    · simp only [generatePythonA2AServer, hp]
    · rcases hcase with hpd | ⟨v, hpd, hv⟩
      · simp only [generatePythonA2AServer, hp, hpd]
      · simp only [generatePythonA2AServer, hp, hpd, hv]
        simp
  · intro resp ht
    simp [runFallback, ht]
  · intro resp parsed r ht hn hs
    simp [runFallback, ht, hn, hs]
  · intro t out
    rfl
  · intro out
    rfl

/-- Witness for C5 at concrete inputs: a falsy structured value routes to
the fallback; an oracle whose fallback throws yields the model-invocation
error; an empty collected text yields the model-invocation error; a good
fallback text yields the validated success. -/
theorem c5_fallback_behavior_witness :
    generatePythonA2AServer echoParams falsyParsedOracle =
      runFallback (falsyParsedOracle.createCall (mkRequest echoParams)) ∧
    runFallback (some emptyCreateResp) = .error .modelInvocation ∧
    runFallback (some ⟨some goodText, none⟩) =
      .ok (resultToJVal ⟨[⟨"a", "x"⟩, ⟨"b", "y"⟩]⟩) :=
  ⟨c5_fallback_behavior.1 echoParams falsyParsedOracle
      (Or.inr ⟨⟨some .null⟩, rfl, Or.inr ⟨.null, rfl, rfl⟩⟩),
   c5_fallback_behavior.2.2.1 emptyCreateResp rfl,
   c5_fallback_behavior.2.2.2.1 ⟨some goodText, none⟩ _ _
     (by decide) (by rfl) (by rfl)⟩

/-! ## Claim C8 -/

lemma foldl_zipAddFile (files : List GeneratedFile)
    (init : List (String × List Nat)) :
    files.foldl (fun es f => zipAddFile es f.path f.content) init =
      init ++ files.map (fun f => (f.path, utf8Bytes f.content)) := by
  induction files generalizing init with
  | nil => simp
  | cons f t ih =>
    rw [List.foldl_cons, ih]
    simp [zipAddFile]

/-- C8: archive packaging.  The archive holds exactly one entry per
generated file, in input order, named by the file's path and carrying the
UTF-8 bytes of its content (empty content included), and the declared
`Content-Length` equals the byte length of the produced buffer whatever the
compressor returns.  The concrete two-file example decompresses to entries
`a.txt` and `b.txt` with byte-exact contents. -/
theorem c8_archive_packaging :
    (∀ (r : StructuredA2AServerOutput)
        (deflate : List (String × List Nat) → List Nat),
      (packageZip r deflate).entries =
        r.files.map (fun f => (f.path, utf8Bytes f.content)) ∧
      (packageZip r deflate).declaredLength =
        (packageZip r deflate).buffer.length) ∧
    (∀ deflate : List (String × List Nat) → List Nat,
      (packageZip ⟨[⟨"a.txt", "hello"⟩, ⟨"b.txt", ""⟩]⟩ deflate).entries =
        [("a.txt", [104, 101, 108, 108, 111]), ("b.txt", [])]) := by
  constructor
  · intro r deflate
    constructor
    · show r.files.foldl (fun es f => zipAddFile es f.path f.content) [] = _
      rw [foldl_zipAddFile]
      rfl
    · rfl
  · intro deflate
    show ([⟨"a.txt", "hello"⟩, ⟨"b.txt", ""⟩] : List GeneratedFile).foldl
        (fun es f => zipAddFile es f.path f.content) [] = _
    rfl

/-! ## Claim C9 -/

/-- C9: input rejection.  A request body whose `agentDescription` is missing
or is the empty string is answered with the 400 rejection, and the response
does not depend on either external oracle or on the compressor — no
generation work is reachable. -/
theorem c9_input_rejection (body : JVal) (wantZip : Bool) (o o2 : Oracle)
    (deflate deflate2 : List (String × List Nat) → List Nat)
    (h : jprop body "agentDescription" = none ∨
      jprop body "agentDescription" = some (.str "")) :
    POST body wantZip o deflate = .badRequest "agentDescription required" ∧
    POST body wantZip o deflate = POST body wantZip o2 deflate2 := by
  have hfalsy : jsTruthyOpt (jprop body "agentDescription") = false := by
    rcases h with h | h <;> rw [h] <;> rfl
  constructor
  · simp [POST, hfalsy]
  · simp [POST, hfalsy]

/-- Witness for C9: the empty body (also the result of a failed body parse)
is rejected identically under two different oracles. -/
theorem c9_input_rejection_witness :
    POST (.obj []) true goodFallbackOracle (fun _ => []) =
      .badRequest "agentDescription required" ∧
    POST (.obj []) true goodFallbackOracle (fun _ => []) =
      POST (.obj []) true badStructuredOracle (fun _ => [0]) :=
  c9_input_rejection (.obj []) true goodFallbackOracle badStructuredOracle
    (fun _ => []) (fun _ => [0]) (Or.inl rfl)

/-- Witness for the amended C1 at the mixed concrete input. -/
theorem c1_filtering_amended_witness :
    coerceServerShape (filesObj [fileJVal ⟨"main.py", "print(1)"⟩,
      fileJVal ⟨"README.md", "hi"⟩, JVal.num "7"]) =
      .ok ⟨(([fileJVal ⟨"main.py", "print(1)"⟩, fileJVal ⟨"README.md", "hi"⟩,
        JVal.num "7"].filter fileOk).map toGF)⟩ ∧
    isOkE (StructuredA2AServerOutputSchemaParse (filesObj
      [fileJVal ⟨"main.py", "print(1)"⟩, fileJVal ⟨"README.md", "hi"⟩,
       JVal.num "7"])) = false :=
  ⟨c1_filtering_amended.1 _ (by decide),
   c1_filtering_amended.2 _ (JVal.num "7")
     (List.mem_cons_of_mem _ (List.mem_cons_of_mem _ (List.mem_cons_self _ _)))
     (by decide)⟩

/-! ## Parser round-trip lemmas -/

lemma skipWs_cons_of_ws (c : Char) (cs : List Char) (h : isJsonWs c = true) :
    skipWs (c :: cs) = skipWs cs := by
  simp [skipWs, h]

lemma skipWs_cons_of_not_ws (c : Char) (cs : List Char) (h : isJsonWs c = false) :
    skipWs (c :: cs) = c :: cs := by
  simp [skipWs, h]

lemma skipWs_ne_nil (cs : List Char) (x : Char) (hx : x ∈ cs)
    (h : isJsonWs x = false) : skipWs cs ≠ [] := by
  induction cs with
  | nil => cases hx
  | cons c t ih =>
    rcases List.mem_cons.mp hx with rfl | hmem
    · simp [skipWs, h]
    · by_cases hc : isJsonWs c = true
      · rw [skipWs_cons_of_ws c t hc]
        exact ih hmem
      · simp only [skipWs]
        rw [if_neg hc]
        simp

lemma one_le_escChar_length (c : Char) : 1 ≤ (escChar c).length := by
  unfold escChar
  repeat' split
  all_goals simp

lemma length_le_escStr (s : List Char) : s.length ≤ (escStr s).length := by
  induction s with
  | nil => simp [escStr]
  | cons c s ih =>
    have h1 := one_le_escChar_length c
    simp only [escStr, List.length_append, List.length_cons]
    omega

lemma hexVal_hexDigitLower (m : Nat) (h : m < 16) :
    hexVal (hexDigitLower m) = some m := by
  interval_cases m <;> rfl

lemma charOfNat_toNat (c : Char) (h : c.toNat < 32) : Char.ofNat c.toNat = c := by
  have hv : Nat.isValidChar c.toNat := Or.inl (by omega)
  unfold Char.ofNat
  rw [dif_pos hv]
  apply Char.ext
  rfl

lemma parseStrBody_esc (s : List Char) : ∀ (rest : List Char) (fuel : Nat),
    s.length < fuel →
    parseStrBody fuel (escStr s ++ '"' :: rest) = some (s, rest) := by
  induction s with
  | nil =>
    intro rest fuel hf
    cases fuel with
    | zero => omega
    | succ f => simp [escStr, parseStrBody]
  | cons c s ih =>
    intro rest fuel hf
    cases fuel with
    | zero => omega
    | succ f =>
      have hf2 : s.length < f := by
        simp only [List.length_cons] at hf
        omega
      by_cases h1 : c = '"'
      · subst h1
        simp [escStr, escChar, parseStrBody, unescChar, ih rest f hf2]
      · by_cases h2 : c = '\\'
        · subst h2
          simp [escStr, escChar, parseStrBody, unescChar, ih rest f hf2]
        · by_cases h3 : c = '\x08'
          · subst h3
            simp [escStr, escChar, parseStrBody, unescChar, ih rest f hf2]
          · by_cases h4 : c = '\x0c'
            · subst h4
              simp [escStr, escChar, parseStrBody, unescChar, ih rest f hf2]
            · by_cases h5 : c = '\n'
              · subst h5
                simp [escStr, escChar, parseStrBody, unescChar, ih rest f hf2]
              · by_cases h6 : c = '\r'
                · subst h6
                  simp [escStr, escChar, parseStrBody, unescChar, ih rest f hf2]
                · by_cases h7 : c = '\t'
                  · subst h7
                    simp [escStr, escChar, parseStrBody, unescChar, ih rest f hf2]
                  · by_cases h8 : c.toNat < 32
                    · have hx0 : hexVal '0' = some 0 := rfl
                      have hx1 := hexVal_hexDigitLower (c.toNat / 16) (by omega)
                      have hx2 := hexVal_hexDigitLower (c.toNat % 16)
                        (Nat.mod_lt _ (by omega))
                      simp only [escStr, escChar, h1, h2, h3, h4, h5, h6, h7, h8,
                        if_true, if_false, ite_true, ite_false, List.cons_append,
                        List.append_assoc]
                      simp [parseStrBody, hx0, hx1, hx2, ih rest f hf2]
                      conv_rhs => rw [← charOfNat_toNat c h8]
                      congr 1
                      omega
                    · simp only [escStr, escChar, h1, h2, h3, h4, h5, h6, h7, h8,
                        if_true, if_false, ite_true, ite_false, List.cons_append,
                        List.append_assoc]
                      simp [parseStrBody, h1, h2, h8, ih rest f hf2]

lemma parseVal_quote (w : String) (rest : List Char) (f : Nat) (hf : 1 ≤ f) :
    parseVal f ('"' :: (escStr w.data ++ '"' :: rest)) = some (.str w, rest) := by
  cases f with
  | zero => omega
  | succ f2 =>
    have hb := parseStrBody_esc w.data rest ((escStr w.data ++ '"' :: rest).length + 1)
      (by
        have := length_le_escStr w.data
        simp only [List.length_append, List.length_cons]
        omega)
    simp only [List.length_append, List.length_cons] at hb
    simp [parseVal, skipWs, isJsonWs, hb]

lemma parseVal_cons_ws (c : Char) (cs : List Char) (f : Nat)
    (h : isJsonWs c = true) : parseVal f (c :: cs) = parseVal f cs := by
  cases f with
  | zero => rfl
  | succ f2 =>
    simp only [parseVal, skipWs_cons_of_ws c cs h]

lemma parseObjFields_step (f2 : Nat) (k v : String) (tail : List Char)
    (hf : 1 ≤ f2) :
    parseObjFields (f2 + 1)
      ('"' :: (escStr k.data ++ '"' :: ':' :: '"' :: (escStr v.data ++ '"' :: tail))) =
    (match skipWs tail with
     | ',' :: r4 =>
       (parseObjFields f2 (skipWs r4)).map (fun p => ((k, JVal.str v) :: p.1, p.2))
     | '}' :: r4 => some ([(k, JVal.str v)], r4)
     | _ => none) := by
  have hb := parseStrBody_esc k.data (':' :: '"' :: (escStr v.data ++ '"' :: tail))
    ((escStr k.data ++ '"' :: ':' :: '"' :: (escStr v.data ++ '"' :: tail)).length + 1)
    (by
      have := length_le_escStr k.data
      simp only [List.length_append, List.length_cons]
      omega)
  have hv := parseVal_quote v tail f2 hf
  simp only [List.length_append, List.length_cons] at hb
  simp [parseObjFields, hb, skipWs, isJsonWs, hv]

lemma parseObjFields_compact (fs : List (String × String)) :
    ∀ (rest : List Char) (f : Nat), fs ≠ [] → fs.length + 1 ≤ f →
    parseObjFields f (fieldsCompact fs ++ '}' :: rest) =
      some (fs.map (fun kv => (kv.1, JVal.str kv.2)), rest) := by
  induction fs with
  | nil => intro rest f h _; exact absurd rfl h
  | cons kv t ih =>
    intro rest f _ hf
    cases f with
    | zero => omega
    | succ f2 =>
      have hf2 : 1 ≤ f2 := by simp only [List.length_cons] at hf; omega
      cases t with
      | nil =>
        have hstep := parseObjFields_step f2 kv.1 kv.2 ('}' :: rest) hf2
        simp only [fieldsCompact, fieldCompact, quoteStr, List.cons_append,
          List.append_assoc, List.singleton_append, List.nil_append] at hstep ⊢
        rw [hstep]
        simp [skipWs, isJsonWs]
      | cons kv2 t2 =>
        have hstep := parseObjFields_step f2 kv.1 kv.2
          (',' :: (fieldsCompact (kv2 :: t2) ++ '}' :: rest)) hf2
        simp only [fieldsCompact, fieldCompact, quoteStr, List.cons_append,
          List.append_assoc, List.singleton_append, List.nil_append] at hstep ⊢
        rw [hstep]
        have hih := ih rest f2 (by simp) (by simp only [List.length_cons] at hf ⊢; omega)
        cases t2 with
        | nil =>
          simpa [skipWs, isJsonWs, fieldsCompact, fieldCompact, quoteStr,
            List.append_assoc] using hih
        | cons kv3 t3 =>
          simpa [skipWs, isJsonWs, fieldsCompact, fieldCompact, quoteStr,
            List.append_assoc] using hih

lemma parseVal_compact (fs : List (String × String)) (rest : List Char) (f : Nat)
    (hf : fs.length + 2 ≤ f) :
    parseVal f (stringifyCompact fs ++ rest) = some (toJVal fs, rest) := by
  cases f with
  | zero => omega
  | succ f2 =>
    cases fs with
    | nil =>
      simp [parseVal, stringifyCompact, fieldsCompact, skipWs, isJsonWs, toJVal]
    | cons kv t =>
      have hof := parseObjFields_compact (kv :: t) rest f2 (by simp)
        (by simp only [List.length_cons] at hf ⊢; omega)
      cases t with
      | nil =>
        simp only [stringifyCompact, fieldsCompact, fieldCompact, quoteStr,
          List.cons_append, List.append_assoc, List.singleton_append,
          List.nil_append] at hof ⊢
        simp [parseVal, skipWs, isJsonWs, hof, toJVal]
      | cons kv2 t2 =>
        simp only [stringifyCompact, fieldsCompact, fieldCompact, quoteStr,
          List.cons_append, List.append_assoc, List.singleton_append,
          List.nil_append] at hof ⊢
        simp [parseVal, skipWs, isJsonWs, hof, toJVal]

lemma length_le_fieldsCompact_succ (fs : List (String × String)) :
    fs.length ≤ (fieldsCompact fs).length + 1 := by
  induction fs with
  | nil => simp [fieldsCompact]
  | cons kv t ih =>
    cases t with
    | nil => simp [fieldsCompact]
    | cons kv2 t2 =>
      simp only [fieldsCompact, List.length_append, List.length_cons] at ih ⊢
      omega

lemma jsonParseChars_compact (fs : List (String × String)) :
    jsonParseChars (stringifyCompact fs) = some (toJVal fs) := by
  have hlen : fs.length + 2 ≤ 2 * (stringifyCompact fs).length + 2 := by
    have h1 := length_le_fieldsCompact_succ fs
    simp only [stringifyCompact, List.length_cons, List.length_append]
    omega
  have h0 := parseVal_compact fs [] (2 * (stringifyCompact fs).length + 2) hlen
  rw [List.append_nil] at h0
  simp [jsonParseChars, h0, skipWs]

lemma parseObjFields_stepP (f2 : Nat) (k v : String) (tail : List Char)
    (hf : 1 ≤ f2) :
    parseObjFields (f2 + 1)
      ('"' :: (escStr k.data ++ '"' :: ':' :: ' ' :: '"' ::
        (escStr v.data ++ '"' :: tail))) =
    (match skipWs tail with
     | ',' :: r4 =>
       (parseObjFields f2 (skipWs r4)).map (fun p => ((k, JVal.str v) :: p.1, p.2))
     | '}' :: r4 => some ([(k, JVal.str v)], r4)
     | _ => none) := by
  have hb := parseStrBody_esc k.data
    (':' :: ' ' :: '"' :: (escStr v.data ++ '"' :: tail))
    ((escStr k.data ++ '"' :: ':' :: ' ' :: '"' ::
      (escStr v.data ++ '"' :: tail)).length + 1)
    (by
      have := length_le_escStr k.data
      simp only [List.length_append, List.length_cons]
      omega)
  have hv : parseVal f2 (' ' :: '"' :: (escStr v.data ++ '"' :: tail)) =
      some (.str v, tail) := by
    rw [parseVal_cons_ws ' ' _ f2 (by rfl)]
    exact parseVal_quote v tail f2 hf
  simp only [List.length_append, List.length_cons] at hb
  simp [parseObjFields, hb, skipWs, isJsonWs, hv]

lemma parseObjFields_pretty (fs : List (String × String)) :
    ∀ (rest : List Char) (f : Nat), fs ≠ [] → fs.length + 1 ≤ f →
    parseObjFields f (fieldsPretty fs ++ '\n' :: '}' :: rest) =
      some (fs.map (fun kv => (kv.1, JVal.str kv.2)), rest) := by
  induction fs with
  | nil => intro rest f h _; exact absurd rfl h
  | cons kv t ih =>
    intro rest f _ hf
    cases f with
    | zero => omega
    | succ f2 =>
      have hf2 : 1 ≤ f2 := by simp only [List.length_cons] at hf; omega
      cases t with
      | nil =>
        have hstep := parseObjFields_stepP f2 kv.1 kv.2 ('\n' :: '}' :: rest) hf2
        simp only [fieldsPretty, fieldPretty, quoteStr, List.cons_append,
          List.append_assoc, List.singleton_append, List.nil_append] at hstep ⊢
        rw [hstep]
        simp [skipWs, isJsonWs]
      | cons kv2 t2 =>
        have hstep := parseObjFields_stepP f2 kv.1 kv.2
          (',' :: '\n' :: ' ' :: ' ' :: (fieldsPretty (kv2 :: t2) ++ '\n' :: '}' :: rest))
          hf2
        simp only [fieldsPretty, fieldPretty, quoteStr, List.cons_append,
          List.append_assoc, List.singleton_append, List.nil_append] at hstep ⊢
        rw [hstep]
        have hih := ih rest f2 (by simp) (by simp only [List.length_cons] at hf ⊢; omega)
        cases t2 with
        | nil =>
          simpa [skipWs, isJsonWs, fieldsPretty, fieldPretty, quoteStr,
            List.append_assoc] using hih
        | cons kv3 t3 =>
          simpa [skipWs, isJsonWs, fieldsPretty, fieldPretty, quoteStr,
            List.append_assoc] using hih

lemma parseVal_pretty (fs : List (String × String)) (rest : List Char) (f : Nat)
    (hf : fs.length + 2 ≤ f) :
    parseVal f (stringifyPretty fs ++ rest) = some (toJVal fs, rest) := by
  cases f with
  | zero => omega
  | succ f2 =>
    cases fs with
    | nil =>
      simp [parseVal, stringifyPretty, skipWs, isJsonWs, toJVal]
    | cons kv t =>
      have hof := parseObjFields_pretty (kv :: t) rest f2 (by simp)
        (by simp only [List.length_cons] at hf ⊢; omega)
      cases t with
      | nil =>
        simp only [stringifyPretty, fieldsPretty, fieldPretty, quoteStr,
          List.cons_append, List.append_assoc, List.singleton_append,
          List.nil_append] at hof ⊢
        simp [parseVal, skipWs, isJsonWs, hof, toJVal]
      | cons kv2 t2 =>
        simp only [stringifyPretty, fieldsPretty, fieldPretty, quoteStr,
          List.cons_append, List.append_assoc, List.singleton_append,
          List.nil_append] at hof ⊢
        simp [parseVal, skipWs, isJsonWs, hof, toJVal]

lemma length_le_fieldsPretty_succ (fs : List (String × String)) :
    fs.length ≤ (fieldsPretty fs).length + 1 := by
  induction fs with
  | nil => simp [fieldsPretty]
  | cons kv t ih =>
    cases t with
    | nil => simp [fieldsPretty]
    | cons kv2 t2 =>
      simp only [fieldsPretty, List.length_append, List.length_cons] at ih ⊢
      omega

lemma jsonParseChars_pretty (fs : List (String × String)) :
    jsonParseChars (stringifyPretty fs) = some (toJVal fs) := by
  have hlen : fs.length + 2 ≤ 2 * (stringifyPretty fs).length + 2 := by
    have h1 := length_le_fieldsPretty_succ fs
    cases fs with
    | nil => simp [stringifyPretty]
    | cons kv t =>
      simp only [stringifyPretty, List.length_cons, List.length_append] at h1 ⊢
      omega
  have h0 := parseVal_pretty fs [] (2 * (stringifyPretty fs).length + 2) hlen
  rw [List.append_nil] at h0
  simp [jsonParseChars, h0, skipWs]

/-! ## Fence-stripping and trimming lemmas -/

lemma stripLead_nonfence (c : Char) (cs : List Char) (h : ¬c = backtick) :
    stripLead (c :: cs) = c :: cs := by
  cases cs with
  | nil => rfl
  | cons c2 t =>
    cases t with
    | nil => rfl
    | cons c3 t2 => simp [stripLead, h]

lemma stripTrail_concat_ne (cs : List Char) (c : Char) (h : ¬c = backtick) :
    stripTrail (cs ++ [c]) = cs ++ [c] := by
  rcases hr : cs.reverse with _ | ⟨c2, t⟩
  · simp [stripTrail, hr]
  · cases t with
    | nil => simp [stripTrail, hr]
    | cons c3 t2 => simp [stripTrail, hr, h]

lemma dropWhile_all_append (p : Char → Bool) (l1 l2 : List Char)
    (h : ∀ x ∈ l1, p x = true) : (l1 ++ l2).dropWhile p = l2.dropWhile p := by
  induction l1 with
  | nil => simp
  | cons a t ih =>
    rw [List.cons_append, List.dropWhile_cons]
    simp only [h a (List.mem_cons_self _ _), if_true]
    exact ih (fun x hx => h x (List.mem_cons_of_mem _ hx))

lemma dropWhile_head_not (p : Char → Bool) (l : List Char) (a : Char)
    (h1 : l.head? = some a) (ha : p a = false) : l.dropWhile p = l := by
  cases l with
  | nil => cases h1
  | cons c t =>
    have hc : c = a := by simpa using h1
    subst hc
    rw [List.dropWhile_cons]
    simp [ha]

lemma jsTrim_append_wsTail (s w : List Char) (a b : Char)
    (h1 : s.head? = some a) (ha : isJsWs a = false)
    (h2 : s.getLast? = some b) (hb : isJsWs b = false)
    (hw : ∀ x ∈ w, isJsWs x = true) : jsTrim (s ++ w) = s := by
  have hd1 : (s ++ w).dropWhile isJsWs = s ++ w := by
    apply dropWhile_head_not isJsWs (s ++ w) a
    · cases s with
      | nil => cases h1
      | cons c t => simpa using h1
    · exact ha
  have hd2 : (s ++ w).reverse.dropWhile isJsWs = s.reverse := by
    rw [List.reverse_append]
    rw [dropWhile_all_append isJsWs w.reverse s.reverse
      (fun x hx => hw x (List.mem_reverse.mp hx))]
    apply dropWhile_head_not isJsWs s.reverse b
    · rw [List.head?_reverse]
      exact h2
    · exact hb
  simp only [jsTrim, hd1, hd2, List.reverse_reverse]

lemma stringifyCompact_head (fs : List (String × String)) :
    (stringifyCompact fs).head? = some '{' := rfl

lemma stringifyCompact_getLast (fs : List (String × String)) :
    (stringifyCompact fs).getLast? = some '}' := by
  have h : stringifyCompact fs = ('{' :: fieldsCompact fs) ++ ['}'] := by
    simp [stringifyCompact]
  rw [h, List.getLast?_concat]

lemma stringifyPretty_head (fs : List (String × String)) :
    (stringifyPretty fs).head? = some '{' := by
  cases fs <;> rfl

lemma stringifyPretty_getLast (fs : List (String × String)) :
    (stringifyPretty fs).getLast? = some '}' := by
  cases fs with
  | nil => rfl
  | cons kv t =>
    have h : stringifyPretty (kv :: t) =
        ('{' :: '\n' :: ' ' :: ' ' :: (fieldsPretty (kv :: t) ++ ['\n'])) ++ ['}'] := by
      simp [stringifyPretty]
    rw [h, List.getLast?_concat]

lemma stripCodeFences_id_of_shape (s : List Char)
    (h1 : s.head? = some '{') (h2 : s.getLast? = some '}') :
    stripCodeFencesChars s = s := by
  cases s with
  | nil => cases h1
  | cons c t =>
    have hc : c = '{' := by simpa using h1
    subst hc
    have hlead : stripLead ('{' :: t) = '{' :: t :=
      stripLead_nonfence '{' t (by decide)
    have hsplit : '{' :: t = ('{' :: t).dropLast ++ ['}'] := by
      have hne : ('{' :: t) ≠ [] := by simp
      have hgl : ('{' :: t).getLast hne = '}' := by
        have := List.getLast?_eq_getLast ('{' :: t) hne
        rw [h2] at this
        exact (Option.some_inj.mp this).symm
      conv_lhs => rw [← List.dropLast_append_getLast hne]
      rw [hgl]
    have htrail : stripTrail ('{' :: t) = '{' :: t := by
      rw [hsplit]
      exact stripTrail_concat_ne _ '}' (by decide)
    have htrim : jsTrim ('{' :: t) = '{' :: t := by
      have h := jsTrim_append_wsTail ('{' :: t) [] '{' '}' h1 (by rfl) h2 (by rfl) (by simp)
      rw [List.append_nil] at h
      exact h
    show jsTrim (stripTrail (stripLead ('{' :: t))) = '{' :: t
    rw [hlead, htrail, htrim]

lemma dropJsonTag_json (rest : List Char) :
    dropJsonTag ('j' :: 's' :: 'o' :: 'n' :: rest) = rest := by
  simp [dropJsonTag]

lemma dropJsonTag_head (c : Char) (cs : List Char) (h1 : ¬c = 'j') (h2 : ¬c = 'J') :
    dropJsonTag (c :: cs) = c :: cs := by
  cases cs with
  | nil => rfl
  | cons c2 t =>
    cases t with
    | nil => rfl
    | cons c3 t2 =>
      cases t2 with
      | nil => rfl
      | cons c4 t3 => simp [dropJsonTag, h1, h2]

lemma stripLead_wrap (tag : Bool) (s : List Char) (hhead : s.head? = some '{') :
    stripLead (wrapFence tag s) =
      s ++ '\n' :: backtick :: backtick :: backtick :: [] := by
  cases s with
  | nil => cases hhead
  | cons c t =>
    have hc : c = '{' := by simpa using hhead
    subst hc
    cases tag with
    | true =>
      show stripLead (backtick :: backtick :: backtick :: _) = _
      simp only [wrapFence, stripLead, if_true, ite_true]
      rw [if_pos (by simp)]
      simp only [List.cons_append, List.nil_append, dropJsonTag_json]
      rw [List.dropWhile_cons]
      simp [List.dropWhile_cons, isJsWs, isJsonWs]
    | false =>
      show stripLead (backtick :: backtick :: backtick :: _) = _
      simp only [wrapFence, stripLead, Bool.false_eq_true, if_false, ite_false]
      rw [if_pos (by simp)]
      simp only [List.cons_append, List.nil_append]
      rw [dropJsonTag_head '\n' _ (by decide) (by decide)]
      rw [List.dropWhile_cons]
      simp [List.dropWhile_cons, isJsWs, isJsonWs]

lemma stripTrail_wrapTail (s : List Char) :
    stripTrail (s ++ '\n' :: backtick :: backtick :: backtick :: []) =
      s ++ ['\n'] := by
  have hrev : (s ++ '\n' :: backtick :: backtick :: backtick :: []).reverse =
      backtick :: backtick :: backtick :: '\n' :: s.reverse := by
    simp
  simp only [stripTrail, hrev]
  rw [if_pos (by simp)]
  simp

lemma normalizeText_of_strip (s sstr : List Char) (v : JVal)
    (hstrip : stripCodeFencesChars s = sstr)
    (hparse : jsonParseChars sstr = some v) :
    normalizeText (String.mk s) = .ok v := by
  simp [normalizeText, hstrip, hparse]

lemma normalize_stringifyCompact (fs : List (String × String)) :
    normalizeText (String.mk (stringifyCompact fs)) = .ok (toJVal fs) :=
  normalizeText_of_strip _ _ _
    (stripCodeFences_id_of_shape _ (stringifyCompact_head fs) (stringifyCompact_getLast fs))
    (jsonParseChars_compact fs)

lemma normalize_stringifyPretty (fs : List (String × String)) :
    normalizeText (String.mk (stringifyPretty fs)) = .ok (toJVal fs) :=
  normalizeText_of_strip _ _ _
    (stripCodeFences_id_of_shape _ (stringifyPretty_head fs) (stringifyPretty_getLast fs))
    (jsonParseChars_pretty fs)

lemma normalize_wrapFence (tag : Bool) (fs : List (String × String)) :
    normalizeText (String.mk (wrapFence tag (stringifyCompact fs))) =
      .ok (toJVal fs) := by
  apply normalizeText_of_strip _ (stringifyCompact fs) _ _ (jsonParseChars_compact fs)
  show jsTrim (stripTrail (stripLead (wrapFence tag (stringifyCompact fs)))) = _
  rw [stripLead_wrap tag _ (stringifyCompact_head fs)]
  rw [stripTrail_wrapTail]
  exact jsTrim_append_wsTail _ ['\n'] '{' '}'
    (stringifyCompact_head fs) (by rfl) (stringifyCompact_getLast fs) (by rfl)
    (by simp [isJsWs, isJsonWs])

lemma jget_toJVal_isSome (fs : List (String × String)) (key : String) :
    (jget (fs.map (fun kv => (kv.1, JVal.str kv.2))) key).isSome =
      decide (key ∈ fs.map Prod.fst) := by
  induction fs with
  | nil => simp [jget]
  | cons kv t ih =>
    by_cases hk : kv.1 = key
    · rcases hj : jget (t.map (fun kv => (kv.1, JVal.str kv.2))) key with _ | r
      · simp [jget, hj, hk]
      · have : (some r).isSome = true := rfl
        simp [jget, hj, hk, ← ih]
    · rcases hj : jget (t.map (fun kv => (kv.1, JVal.str kv.2))) key with _ | r
      · simp only [List.map_cons, jget, hj, if_neg hk]
        rw [hj] at ih
        simp only [Option.isSome_none] at ih
        simp [List.mem_cons, ← ih]
        intro hkey
        exact absurd hkey.symm hk
      · simp only [List.map_cons, jget, hj]
        rw [hj] at ih
        simp only [Option.isSome_some] at ih
        simp [List.mem_cons, ← ih]

/-! ## Claim C3 -/

/-- C3: normalizer round-trip.  For any flat object with string keys and
values, normalizing its stringification returns exactly the parsed object,
which contains a `files` field iff the object does; wrapping the same JSON
in a leading (optionally `json`-tagged) code fence and a trailing code
fence, or pretty-printing it with two-space indentation, normalizes to the
identical parsed value as the unwrapped compact JSON. -/
theorem c3_normalizer_roundtrip :
    (∀ fs : List (String × String),
      normalizeText (String.mk (stringifyCompact fs)) = .ok (toJVal fs) ∧
      (jprop (toJVal fs) "files").isSome = decide ("files" ∈ fs.map Prod.fst)) ∧
    (∀ fs : List (String × String),
      normalizeText (String.mk (wrapFence true (stringifyCompact fs))) =
        normalizeText (String.mk (stringifyCompact fs)) ∧
      normalizeText (String.mk (wrapFence false (stringifyCompact fs))) =
        normalizeText (String.mk (stringifyCompact fs)) ∧
      normalizeText (String.mk (stringifyPretty fs)) =
        normalizeText (String.mk (stringifyCompact fs))) := by
  constructor
  · intro fs
    exact ⟨normalize_stringifyCompact fs, jget_toJVal_isSome fs "files"⟩
  · intro fs
    rw [normalize_stringifyCompact fs, normalize_stringifyPretty fs,
      normalize_wrapFence true fs, normalize_wrapFence false fs]
    exact ⟨rfl, rfl, rfl⟩

/-! ## Brace-extraction lemmas -/

lemma firstBrace_cons_brace (cs : List Char) : firstBrace ('{' :: cs) = some 0 := by
  simp [firstBrace]

lemma firstBrace_eq_none (cs : List Char) (h : '{' ∉ cs) : firstBrace cs = none := by
  induction cs with
  | nil => rfl
  | cons c t ih =>
    have hc : ¬(c = '{') := fun hh => h (hh ▸ List.mem_cons_self _ _)
    simp [firstBrace, hc, ih (fun hm => h (List.mem_cons_of_mem _ hm))]

lemma extractBraces_eq_none_of_no_brace (cs : List Char) (h : '{' ∉ cs) :
    extractBraces cs = none := by
  simp [extractBraces, firstBrace_eq_none cs h]

lemma getLast?_eq_of_max (l : List Nat) (m : Nat) (hm : m ∈ l)
    (hmax : ∀ j ∈ l, j ≤ m) (hp : l.Pairwise (· < ·)) : l.getLast? = some m := by
  induction l with
  | nil => cases hm
  | cons a t ih =>
    cases t with
    | nil =>
      have hma : m = a := by simpa using hm
      simp [hma]
    | cons b t2 =>
      rw [List.getLast?_cons_cons]
      have hp2 : (b :: t2).Pairwise (· < ·) := List.Pairwise.of_cons hp
      have hab : a < b := (List.pairwise_cons.mp hp).1 b (List.mem_cons_self _ _)
      have hmem : m ∈ b :: t2 := by
        rcases List.mem_cons.mp hm with rfl | hmem2
        · have hbm := hmax b (List.mem_cons_of_mem _ (List.mem_cons_self _ _))
          omega
        · exact hmem2
      exact ih hmem (fun j hj => hmax j (List.mem_cons_of_mem _ hj)) hp2

lemma validCloseAt_length_lt (cs : List Char) (p : Nat)
    (h : validCloseAt cs p = true) : p < cs.length := by
  simp only [validCloseAt, Bool.and_eq_true, decide_eq_true_eq] at h
  exact h.1.2

lemma lastValidClose_eq (cs : List Char) (m : Nat)
    (hm : validCloseAt cs m = true)
    (hmax : ∀ j, m < j → validCloseAt cs j = false) :
    lastValidClose cs = some m := by
  apply getLast?_eq_of_max
  · exact List.mem_filter.mpr ⟨List.mem_range.mpr (validCloseAt_length_lt cs m hm), hm⟩
  · intro j hj
    have hj2 := (List.mem_filter.mp hj).2
    by_contra hlt
    push_neg at hlt
    rw [hmax j hlt] at hj2
    cases hj2
  · exact List.Pairwise.filter _ (List.pairwise_lt_range _)

lemma isJsonWs_false_of_isJsWs_false (c : Char) (h : isJsWs c = false) :
    isJsonWs c = false := by
  unfold isJsWs at h
  rcases hb : isJsonWs c
  · rfl
  · rw [hb] at h
    simp at h

lemma validCloseAt_append_end (s c : List Char)
    (hs : s.getLast? = some '}') (hc : c.head? = some '\n') :
    validCloseAt (s ++ c) (s.length - 1) = true := by
  cases s with
  | nil => cases hs
  | cons a t =>
    cases c with
    | nil => cases hc
    | cons b u =>
      have hb : b = '\n' := by simpa using hc
      subst hb
      set s := a :: t with hsdef
      have hsn : s ≠ [] := by simp [hsdef]
      have hdl : s.dropLast.length = s.length - 1 := List.length_dropLast s
      have hgl : s.getLast hsn = '}' := by
        have := List.getLast?_eq_getLast s hsn
        rw [hs] at this
        exact (Option.some_inj.mp this).symm
      have hsplit : s = s.dropLast ++ ['}'] := by
        conv_lhs => rw [← List.dropLast_append_getLast hsn]
        rw [hgl]
      have h1l : 1 ≤ s.length := by simp [hsdef]
      have hgd1 : (s ++ '\n' :: u).getD (s.length - 1) ' ' = '}' := by
        rw [List.getD_append _ _ _ _ (by omega)]
        rw [List.getD_eq_getElem s ' ' (by omega)]
        have := List.getLast_eq_getElem s hsn
        rw [hgl] at this
        exact this.symm
      have hgd2 : (s ++ '\n' :: u).getD (s.length - 1 + 1) ' ' = '\n' := by
        rw [List.getD_append_right _ _ _ _ (by omega)]
        have hix : s.length - 1 + 1 - s.length = 0 := by omega
        rw [hix]
        rfl
      simp only [validCloseAt, hgd1, hgd2]
      simp only [List.length_append, List.length_cons]
      simp [isLineTerm]
      omega

lemma validCloseAt_append_after (s c : List Char) (hnc : '}' ∉ c) (j : Nat)
    (hj : s.length ≤ j) : validCloseAt (s ++ c) j = false := by
  by_cases hjl : j < s.length + c.length
  · have hgd : (s ++ c).getD j ' ' = c.getD (j - s.length) ' ' :=
      List.getD_append_right _ _ _ _ hj
    have hmem : c.getD (j - s.length) ' ' ∈ c := by
      rw [List.getD_eq_getElem c ' ' (by omega)]
      exact List.getElem_mem _
    have hne : ¬(c.getD (j - s.length) ' ' = '}') := by
      intro hh
      rw [hh] at hmem
      exact hnc hmem
    have hne2 : ((s ++ c)[j]?.getD ' ' = '}') = False := by
      simp only [eq_iff_iff, iff_false]
      intro hh
      have hh2 : List.getD (s ++ c) j ' ' = '}' := by
        rw [List.getD_eq_getElem?_getD]
        exact hh
      rw [hgd] at hh2
      exact hne hh2
    simp [validCloseAt, hne2]
  · have hlen : ¬(j < (s ++ c).length) := by
      simp only [List.length_append]
      omega
    simp only [validCloseAt]
    rw [decide_eq_false hlen]
    simp

lemma two_le_length_stringifyCompact (fs : List (String × String)) :
    2 ≤ (stringifyCompact fs).length := by
  simp only [stringifyCompact, List.length_cons, List.length_append]
  omega

lemma stripTrail_of_getLast (cs : List Char) (e : Char)
    (h : cs.getLast? = some e) (hne : ¬e = backtick) : stripTrail cs = cs := by
  have hcsne : cs ≠ [] := by
    intro hh
    rw [hh] at h
    cases h
  have hgl : cs.getLast hcsne = e := by
    have := List.getLast?_eq_getLast cs hcsne
    rw [h] at this
    exact (Option.some_inj.mp this).symm
  have hsplit : cs = cs.dropLast ++ [e] := by
    conv_lhs => rw [← List.dropLast_append_getLast hcsne]
    rw [hgl]
  rw [hsplit]
  exact stripTrail_concat_ne _ e hne

lemma extractBraces_append (fs : List (String × String)) (c : List Char)
    (hc1 : c.head? = some '\n') (hc2 : '}' ∉ c) :
    extractBraces (stringifyCompact fs ++ c) = some (stringifyCompact fs) := by
  have hfb : firstBrace (stringifyCompact fs ++ c) = some 0 := by
    show firstBrace (('{' :: (fieldsCompact fs ++ ['}'])) ++ c) = some 0
    rw [List.cons_append]
    exact firstBrace_cons_brace _
  have h2 := two_le_length_stringifyCompact fs
  have hlv : lastValidClose (stringifyCompact fs ++ c) =
      some ((stringifyCompact fs).length - 1) :=
    lastValidClose_eq _ _
      (validCloseAt_append_end _ _ (stringifyCompact_getLast fs) hc1)
      (fun j hj => validCloseAt_append_after _ _ hc2 j (by omega))
  simp only [extractBraces, hfb, hlv]
  rw [if_pos (by omega)]
  rw [List.drop_zero]
  congr 1
  rw [show (stringifyCompact fs).length - 1 - 0 + 1 = (stringifyCompact fs).length
    from by omega]
  exact List.take_left _ _

lemma jsonParseChars_append_fail (fs : List (String × String)) (c : List Char)
    (hnws : ∃ x ∈ c, isJsonWs x = false) :
    jsonParseChars (stringifyCompact fs ++ c) = none := by
  obtain ⟨x, hx, hxw⟩ := hnws
  have hfuel : fs.length + 2 ≤ 2 * (stringifyCompact fs ++ c).length + 2 := by
    have h1 := length_le_fieldsCompact_succ fs
    simp only [List.length_append, stringifyCompact, List.length_cons]
    omega
  have h0 := parseVal_compact fs c _ hfuel
  simp only [List.length_append] at h0
  have hsk := skipWs_ne_nil c x hx hxw
  simp [jsonParseChars, h0, hsk]

lemma strip_id_append (fs : List (String × String)) (c : List Char) (e : Char)
    (hce : c.getLast? = some e) (hei : isJsWs e = false) (heb : ¬e = backtick) :
    stripCodeFencesChars (stringifyCompact fs ++ c) = stringifyCompact fs ++ c := by
  have hcne : c ≠ [] := by
    intro hh
    rw [hh] at hce
    cases hce
  have hhead : (stringifyCompact fs ++ c).head? = some '{' := by
    show (('{' :: (fieldsCompact fs ++ ['}'])) ++ c).head? = some '{'
    rw [List.cons_append]
    rfl
  have hlast : (stringifyCompact fs ++ c).getLast? = some e := by
    rw [List.getLast?_append_of_ne_nil _ hcne]
    exact hce
  have hlead : stripLead (stringifyCompact fs ++ c) = stringifyCompact fs ++ c := by
    show stripLead (('{' :: (fieldsCompact fs ++ ['}'])) ++ c) = _
    rw [List.cons_append]
    exact stripLead_nonfence '{' _ (by decide)
  have htrail := stripTrail_of_getLast _ e hlast heb
  have htrim : jsTrim (stringifyCompact fs ++ c) = stringifyCompact fs ++ c := by
    have h := jsTrim_append_wsTail (stringifyCompact fs ++ c) [] '{' e
      hhead (by rfl) hlast hei (by simp)
    rw [List.append_nil] at h
    exact h
  show jsTrim (stripTrail (stripLead (stringifyCompact fs ++ c))) = _
  rw [hlead, htrail, htrim]

lemma normalize_with_commentary (fs : List (String × String)) (c : List Char)
    (e : Char) (hc1 : c.head? = some '\n') (hc2 : '}' ∉ c)
    (hce : c.getLast? = some e) (hei : isJsWs e = false) (heb : ¬e = backtick) :
    normalizeText (String.mk (stringifyCompact fs ++ c)) = .ok (toJVal fs) := by
  have hcne : c ≠ [] := by
    intro hh
    rw [hh] at hce
    cases hce
  have hmem : e ∈ c := by
    have hgl : c.getLast hcne = e := by
      have := List.getLast?_eq_getLast c hcne
      rw [hce] at this
      exact (Option.some_inj.mp this).symm
    exact hgl ▸ List.getLast_mem hcne
  have hstrip := strip_id_append fs c e hce hei heb
  have hdirect := jsonParseChars_append_fail fs c
    ⟨e, hmem, isJsonWs_false_of_isJsWs_false e hei⟩
  have hex := extractBraces_append fs c hc1 hc2
  simp [normalizeText, hstrip, hdirect, hex, jsonParseChars_compact fs]

/-! ## Claim C4 -/

/-- C4: fallback extraction and failure.  When the direct parse of the
fence-stripped text fails, the normaliser's outcome is exactly that of
extracting the block from the first opening brace to the last line-ending
closing brace and parsing it; if the stripped text contains no opening
brace at all, the outcome is the normalization error and nothing else.
A compact JSON object followed by trailing commentary (opening on a new
line, containing no closing brace, ending in a non-whitespace, non-fence
character) still normalizes to exactly the object's value. -/
theorem c4_fallback_extraction :
    (∀ t : String, jsonParseChars (stripCodeFencesChars t.data) = none →
      normalizeText t =
        (match extractBraces (stripCodeFencesChars t.data) with
         | none => .error .normalization
         | some sub =>
           match jsonParseChars sub with
           | some v => .ok v
           | none => .error .badJson)) ∧
    (∀ t : String, jsonParseChars (stripCodeFencesChars t.data) = none →
      '{' ∉ stripCodeFencesChars t.data →
      normalizeText t = .error .normalization) ∧
    (∀ (fs : List (String × String)) (c : List Char) (e : Char),
      c.head? = some '\n' → '}' ∉ c → c.getLast? = some e →
      isJsWs e = false → ¬e = backtick →
      normalizeText (String.mk (stringifyCompact fs ++ c)) = .ok (toJVal fs)) := by
  refine ⟨?_, ?_, ?_⟩
  · intro t h
    simp [normalizeText, h]
  · intro t h hnb
    simp [normalizeText, h, extractBraces_eq_none_of_no_brace _ hnb]
  · intro fs c e hc1 hc2 hce hei heb
    exact normalize_with_commentary fs c e hc1 hc2 hce hei heb

/-- Witness for C4: brace-free text raises the normalization error; a
concrete object followed by a commentary line still normalizes to the
object. -/
theorem c4_fallback_extraction_witness :
    normalizeText "no json here" = .error .normalization ∧
    normalizeText (String.mk (stringifyCompact [("files", "none")] ++
      ('\n' :: 'D' :: 'o' :: 'n' :: 'e' :: '.' :: []))) =
      .ok (toJVal [("files", "none")]) :=
  ⟨c4_fallback_extraction.2.1 "no json here" (by rfl) (by decide),
   c4_fallback_extraction.2.2 [("files", "none")]
     ('\n' :: 'D' :: 'o' :: 'n' :: 'e' :: '.' :: []) '.'
     (by rfl) (by decide) (by rfl) (by rfl) (by decide)⟩
